import Mathlib

/-!
Verification of the fetch subsystem of the purify web-scraping service.

The Go sources are shallowly embedded: each Go function that a claim is
about is translated into an executable Lean definition over explicit
state, and the claims are settled as theorems about those definitions.

Components covered:
* response cache (`cache/cache.go`)
* adaptive browser-page pool (`engine/adaptive_pool.go`)
* domain memory and multi-engine dispatcher (`engine/domain_memory.go`,
  dispatcher source file)
* SimHash fingerprinting (`simhash` package)
* HTTP engine response acceptance (`engine/http_engine.go`)
* rod (browser) engine wrapper (`engine/rod_engine.go`)
* scraper facade (`scraper/page.go`)
-/

namespace AssocMap

/-- Association-list model of a Go `map[string]β`: lookup scans from the
front; the list order models the map's (arbitrary) iteration order. -/
def lookupA {β : Type} : List (String × β) → String → Option β
  | [], _ => none
  | (k2, v) :: rest, k => if k2 = k then some v else lookupA rest k

/-- Removal of every binding of a key, modelling Go `delete(m, k)`
(a Go map holds at most one binding per key; erasing all is the faithful
image of that on lists that may be non-normalised). -/
def eraseA {β : Type} : List (String × β) → String → List (String × β)
  | [], _ => []
  | (k2, v) :: rest, k =>
      if k2 = k then eraseA rest k else (k2, v) :: eraseA rest k

/-- Go map assignment `m[k] = v`: any previous binding is replaced. -/
def setA {β : Type} (l : List (String × β)) (k : String) (v : β) :
    List (String × β) :=
  eraseA l k ++ [(k, v)]

theorem lookupA_setA {β : Type} (l : List (String × β)) (k : String) (v : β) :
    lookupA (setA l k v) k = some v := by
  induction l with
  | nil => simp [setA, eraseA, lookupA]
  | cons hd tl ih =>
      obtain ⟨k2, w⟩ := hd
      by_cases h : k2 = k
      · simpa [setA, eraseA, h] using ih
      · simpa [setA, eraseA, lookupA, h] using ih

theorem length_eraseA_le {β : Type} (l : List (String × β)) (k : String) :
    (eraseA l k).length ≤ l.length := by
  induction l with
  | nil => simp [eraseA]
  | cons hd tl ih =>
      obtain ⟨k2, w⟩ := hd
      by_cases h : k2 = k
      · simp only [eraseA, if_pos h, List.length_cons]
        omega
      · simp only [eraseA, if_neg h, List.length_cons]
        omega

end AssocMap

namespace Cache

open AssocMap

/-- Mirrors `entry` in `cache/cache.go`: a cached response together with
its creation time.  Times are modelled in nanoseconds (the unit of Go's
`time.Duration`); the response payload is abstract. -/
structure Entry (α : Type) where
  response : α
  createdAt : Int
deriving DecidableEq

/-- Store of `Cache`: the key → entry map, as an association list whose
order models the Go map's iteration order. -/
def Store (α : Type) : Type := List (String × Entry α)

/-- Mirrors `Cache.Get` in `cache/cache.go`: miss when `maxAgeMs ≤ 0`;
otherwise look the key up and miss exactly when
`time.Since(e.createdAt) > maxAge` where `maxAge = maxAgeMs ms`.
`now` is the read instant in nanoseconds; one millisecond is `1000000`
nanoseconds. -/
def cacheGet {α : Type} (store : Store α) (k : String) (maxAgeMs : Int)
    (now : Int) : Option α :=
  if maxAgeMs ≤ 0 then none
  else
    match lookupA store k with
    | none => none
    | some e =>
        if now - e.createdAt > maxAgeMs * 1000000 then none
        else some e.response

/-- Eviction of the first entry encountered during the map walk in
`Cache.Set` (`for k := range c.store { delete; break }`).  The head of
the association list models the first key the walk yields. -/
def evictOne {α : Type} : Store α → Store α
  | [] => []
  | _ :: rest => rest

/-- Mirrors `Cache.Set` in `cache/cache.go`: evict one arbitrary entry
when at capacity, then insert the new entry with `createdAt = now`. -/
def cacheSet {α : Type} (maxEntries : Nat) (store : Store α) (k : String)
    (v : α) (now : Int) : Store α :=
  let store2 := if maxEntries ≤ store.length then evictOne store else store
  setA store2 k ⟨v, now⟩

/-- C6: `Get` misses whenever `maxAgeMs ≤ 0`; for positive `maxAgeMs` it
returns the stored entry exactly when the key is present and the entry's
age `now − createdAt` is at most `maxAgeMs` milliseconds, and misses when
the age exceeds `maxAgeMs`. -/
theorem cache_get_spec {α : Type} (store : Store α) (k : String)
    (maxAgeMs now : Int) :
    (maxAgeMs ≤ 0 → cacheGet store k maxAgeMs now = none) ∧
    (0 < maxAgeMs →
      ∀ r : α, cacheGet store k maxAgeMs now = some r ↔
        ∃ e, lookupA store k = some e ∧
          now - e.createdAt ≤ maxAgeMs * 1000000 ∧ r = e.response) := by
  constructor
  · intro h
    simp [cacheGet, h]
  · intro hpos r
    have hn : ¬ maxAgeMs ≤ 0 := by omega
    constructor
    · intro h
      simp only [cacheGet, if_neg hn] at h
      cases hl : lookupA store k with
      | none => rw [hl] at h; simp at h
      | some e =>
          rw [hl] at h
          by_cases hage : now - e.createdAt > maxAgeMs * 1000000
          · simp [hage] at h
          · simp only [if_neg hage, Option.some.injEq] at h
            exact ⟨e, rfl, by omega, h.symm⟩
    · rintro ⟨e, hl, hage, hr⟩
      have hage2 : ¬ now - e.createdAt > maxAgeMs * 1000000 := by omega
      simp [cacheGet, if_neg hn, hl, hage2, hr]

/-- Witness for `cache_get_spec` at a concrete store. -/
theorem cache_get_spec_witness :
    cacheGet ([(("k"), (⟨7, 0⟩ : Entry Nat))]) ("k") 0 5 = none ∧
    cacheGet ([(("k"), (⟨7, 0⟩ : Entry Nat))]) ("k") 100 5 = some 7 := by
  refine ⟨(cache_get_spec _ _ 0 5).1 (by decide), ?_⟩
  exact ((cache_get_spec ([(("k"), (⟨7, 0⟩ : Entry Nat))]) ("k") 100 5).2
    (by decide) 7).mpr ⟨⟨7, 0⟩, by decide, by decide, rfl⟩

/-- C7: with positive `maxEntries` and a store currently within capacity,
`Set` keeps the store within capacity; when the store is at (or beyond)
capacity exactly one entry is removed before the insert; and the new
entry is inserted with `createdAt = now`. -/
theorem cache_set_spec {α : Type} (maxEntries : Nat) (store : Store α)
    (k : String) (v : α) (now : Int)
    (hpos : 0 < maxEntries) (hcap : store.length ≤ maxEntries) :
    (cacheSet maxEntries store k v now).length ≤ maxEntries ∧
    (maxEntries ≤ store.length → (evictOne store).length + 1 = store.length) ∧
    lookupA (cacheSet maxEntries store k v now) k = some ⟨v, now⟩ := by
  refine ⟨?_, ?_, ?_⟩
  · by_cases h : maxEntries ≤ store.length
    · have hne : store ≠ [] := by
        intro he
        rw [he] at h
        simp at h
        omega
      obtain ⟨hd, tl, rfl⟩ := List.exists_cons_of_ne_nil hne
      have h' : maxEntries ≤ tl.length + 1 := by simpa using h
      have hcap' : tl.length + 1 ≤ maxEntries := by simpa using hcap
      simp only [cacheSet, List.length_cons, if_pos h', evictOne, setA,
        List.length_append, List.length_nil]
      have := length_eraseA_le tl k
      omega
    · have h' : ¬ maxEntries ≤ store.length := h
      simp only [cacheSet, if_neg h', setA, List.length_append,
        List.length_cons, List.length_nil]
      have := length_eraseA_le store k
      omega
  · intro h
    have hne : store ≠ [] := by
      intro he
      rw [he] at h
      simp at h
      omega
    obtain ⟨hd, tl, rfl⟩ := List.exists_cons_of_ne_nil hne
    simp [evictOne]
  · exact lookupA_setA _ k _

/-- Witness for `cache_set_spec` at a concrete store already at
capacity. -/
theorem cache_set_spec_witness :
    (cacheSet 1 ([(("a"), (⟨5, 0⟩ : Entry Nat))]) ("b") 9 3).length ≤ 1 ∧
    lookupA (cacheSet 1 ([(("a"), (⟨5, 0⟩ : Entry Nat))]) ("b") 9 3) ("b") =
      some ⟨9, 3⟩ := by
  have h := cache_set_spec 1 ([(("a"), (⟨5, 0⟩ : Entry Nat))]) ("b") 9 3
    (by decide) (by decide)
  exact ⟨h.1, h.2.2⟩

end Cache

namespace AdaptivePool

/-- Nanoseconds in one minute (`time.Minute`). -/
def minuteNs : Int := 60000000000

/-- Mirrors `PageHandle` in `engine/adaptive_pool.go`.  The error score
is a rational: every value the Go code can produce is a multiple of
`0.5`, on which binary floating point arithmetic is exact, so `ℚ` is a
faithful model.  `created` is the creation instant in nanoseconds. -/
structure PageHandle where
  id : Int
  errScore : ℚ
  useCount : Nat
  created : Int

/-- Mirrors `NewPageHandle`: zero score and use count, created now. -/
def newPageHandle (id : Int) (now : Int) : PageHandle :=
  { id := id, errScore := 0, useCount := 0, created := now }

/-- Mirrors `PageHandle.RecordSuccess`: `useCount++` and
`errScore = max(0, errScore − 0.5)`. -/
def recordSuccess (h : PageHandle) : PageHandle :=
  { h with useCount := h.useCount + 1, errScore := max 0 (h.errScore - 1/2) }

/-- Mirrors `PageHandle.RecordFailure`: `useCount++` and
`errScore += 1.0`. -/
def recordFailure (h : PageHandle) : PageHandle :=
  { h with useCount := h.useCount + 1, errScore := h.errScore + 1 }

/-- Mirrors `PageHandle.ShouldRetire` at read instant `now`:
retire when `errScore ≥ 3.0`, or `useCount ≥ 50`, or the handle is at
least 50 minutes old. -/
def shouldRetire (h : PageHandle) (now : Int) : Bool :=
  if h.errScore ≥ 3 then true
  else if h.useCount ≥ 50 then true
  else if now - h.created ≥ 50 * minuteNs then true
  else false

/-- Health-verdict phase of `AdaptivePool.Put`: `RecordSuccess` on a
success verdict, `RecordFailure` on a failure verdict. -/
def putVerdict (h : PageHandle) (success : Bool) : PageHandle :=
  if success then recordSuccess h else recordFailure h

/-- Retirement decision of `AdaptivePool.Put`: the handle is destroyed
rather than requeued exactly when `ShouldRetire` holds after the
verdict. -/
def putRetires (h : PageHandle) (success : Bool) (now : Int) : Bool :=
  shouldRetire (putVerdict h success) now

/-- C4: the `Put` health verdict updates score and use count exactly as
specified, retires the handle if and only if after the verdict
`errScore ≥ 3.0` or `useCount ≥ 50` or the handle's age is at least
50 minutes, and keeps `errScore` nonnegative; hence `errScore ≥ 0`
holds across any sequence of `Put` verdicts applied to a fresh handle. -/
theorem page_handle_health_spec (h : PageHandle) (success : Bool) (now : Int) :
    ((putVerdict h true).errScore = max 0 (h.errScore - 1/2) ∧
      (putVerdict h true).useCount = h.useCount + 1) ∧
    ((putVerdict h false).errScore = h.errScore + 1 ∧
      (putVerdict h false).useCount = h.useCount + 1) ∧
    (putRetires h success now = true ↔
      ((putVerdict h success).errScore ≥ 3 ∨
        (putVerdict h success).useCount ≥ 50 ∨
        now - h.created ≥ 50 * minuteNs)) ∧
    (0 ≤ h.errScore → 0 ≤ (putVerdict h success).errScore) ∧
    (∀ (id t : Int) (verdicts : List Bool),
      0 ≤ (verdicts.foldl putVerdict (newPageHandle id t)).errScore) := by
  refine ⟨⟨rfl, rfl⟩, ⟨rfl, rfl⟩, ?_, ?_, ?_⟩
  · have hcr : (putVerdict h success).created = h.created := by
      cases success <;> simp [putVerdict, recordSuccess, recordFailure]
    unfold putRetires shouldRetire
    rw [hcr]
    by_cases h1 : (putVerdict h success).errScore ≥ 3
    · simp [h1]
    · by_cases h2 : (putVerdict h success).useCount ≥ 50
      · simp [h1, h2]
      · by_cases h3 : now - h.created ≥ 50 * minuteNs
        · simp [h1, h2, h3]
        · simp [h1, h2, h3]
  · intro h0
    cases success
    · simp [putVerdict, recordFailure]
      linarith
    · simp [putVerdict, recordSuccess]
  · intro id t verdicts
    have step : ∀ (g : PageHandle) (b : Bool),
        0 ≤ g.errScore → 0 ≤ (putVerdict g b).errScore := by
      intro g b hg
      cases b
      · simp [putVerdict, recordFailure]
        linarith
      · simp [putVerdict, recordSuccess]
    have main : ∀ (vs : List Bool) (g : PageHandle),
        0 ≤ g.errScore → 0 ≤ (vs.foldl putVerdict g).errScore := by
      intro vs
      induction vs with
      | nil => intro g hg; simpa using hg
      | cons b rest ih =>
          intro g hg
          exact ih (putVerdict g b) (step g b hg)
    exact main verdicts (newPageHandle id t) (by norm_num [newPageHandle])

/-- Concrete handle used by the witness below. -/
def sampleHandle : PageHandle :=
  { id := 0, errScore := 1, useCount := 2, created := 0 }

/-- Witness for `page_handle_health_spec` at a concrete handle. -/
theorem page_handle_health_spec_witness :
    (0 : ℚ) ≤ (putVerdict sampleHandle true).errScore := by
  exact (page_handle_health_spec sampleHandle true 0).2.2.2.1 (by norm_num [sampleHandle])

end AdaptivePool

namespace PoolSizing

/-- Integer fields of `AdaptivePoolConfig` together with the scaling
parameters (as rationals; the Go float defaults `0.9` and `0.05` are
exact in binary-scaled decimal and irrelevant to the size bound). -/
structure PoolConfig where
  minPages : Nat
  hardMax : Nat
  memThreshold : ℚ
  scaleStep : ℚ

/-- Mirrors the argument normalisation at the top of `NewAdaptivePool`:
`minPages ≥ 1`, `hardMax ≥ minPages`, positive defaults for the scaling
parameters. -/
def normalizeConfig (c : PoolConfig) : PoolConfig :=
  let mp := if c.minPages < 1 then 1 else c.minPages
  let hm := if c.hardMax < mp then mp else c.hardMax
  let mt := if c.memThreshold ≤ 0 then 9/10 else c.memThreshold
  let ss := if c.scaleStep ≤ 0 then 1/20 else c.scaleStep
  { minPages := mp, hardMax := hm, memThreshold := mt, scaleStep := ss }

/-- Counting abstraction of the pool state: `live = len(ap.all)` and
`idle` = number of handles buffered in the `ap.idle` channel. -/
structure PoolState where
  live : Nat
  idle : Nat
deriving DecidableEq

/-- Mirrors `AdaptivePool.Get`.  First a non-blocking try on the idle
channel; on miss, create a new handle when `len(all) < hardMax` (the
`factoryOk` flag is the factory call's outcome); otherwise, or when the
factory fails, block on the idle channel — the blocked receive is
modelled as consuming the idle handle whose later arrival resumes it,
which leaves `live` unchanged.  The returned flag records whether a new
handle was created. -/
def getStep (cfg : PoolConfig) (factoryOk : Bool) (s : PoolState) :
    PoolState × Bool :=
  if 0 < s.idle then ({ live := s.live, idle := s.idle - 1 }, false)
  else if s.live < cfg.hardMax then
    if factoryOk then ({ live := s.live + 1, idle := s.idle }, true)
    else ({ live := s.live, idle := s.idle - 1 }, false)
  else ({ live := s.live, idle := s.idle - 1 }, false)

/-- Size effect of `AdaptivePool.Put`: when the handle retires it is
destroyed (`live − 1`) and replaced by a fresh idle handle only when the
live count dipped below `minPages` and the factory call succeeds;
otherwise the handle returns to the idle channel. -/
def putStep (cfg : PoolConfig) (retire replaceOk : Bool) (s : PoolState) :
    PoolState :=
  if retire then
    let live2 := s.live - 1
    if live2 < cfg.minPages ∧ replaceOk = true then
      { live := live2 + 1, idle := s.idle + 1 }
    else { live := live2, idle := s.idle }
  else { live := s.live, idle := s.idle + 1 }

/-- Grow branch of `scaleCheck`: up to `n` iterations, each creating a
handle, breaking as soon as `len(all) ≥ hardMax` (a factory failure also
breaks, which is the same as a smaller `n`). -/
def growLoop (cfg : PoolConfig) : Nat → PoolState → PoolState
  | 0, s => s
  | n + 1, s =>
      if cfg.hardMax ≤ s.live then s
      else growLoop cfg n { live := s.live + 1, idle := s.idle + 1 }

/-- Shrink branch of `scaleCheck`: up to `n` iterations, each destroying
one idle handle, breaking at `len(all) ≤ minPages` and returning when no
idle handle is available. -/
def shrinkLoop (cfg : PoolConfig) : Nat → PoolState → PoolState
  | 0, s => s
  | n + 1, s =>
      if s.live ≤ cfg.minPages then s
      else if 0 < s.idle then
        shrinkLoop cfg n { live := s.live - 1, idle := s.idle - 1 }
      else s

/-- One observable pool operation, with the non-deterministic outcomes
(factory success, retirement verdict, loop budget) as parameters. -/
inductive PoolOp where
  | get (factoryOk : Bool)
  | put (retire replaceOk : Bool)
  | grow (n : Nat)
  | shrink (n : Nat)

/-- Interleaving semantics: each operation is one atomic size change. -/
def step (cfg : PoolConfig) (s : PoolState) : PoolOp → PoolState
  | .get ok => (getStep cfg ok s).1
  | .put r rep => putStep cfg r rep s
  | .grow n => growLoop cfg n s
  | .shrink n => shrinkLoop cfg n s

/-- A run of the pool: fold the operations over an initial state. -/
def run (cfg : PoolConfig) (s : PoolState) (ops : List PoolOp) : PoolState :=
  ops.foldl (step cfg) s

theorem growLoop_live_le (cfg : PoolConfig) (n : Nat) (s : PoolState)
    (h : s.live ≤ cfg.hardMax) : (growLoop cfg n s).live ≤ cfg.hardMax := by
  induction n generalizing s with
  | zero => simpa [growLoop] using h
  | succ m ih =>
      by_cases hb : cfg.hardMax ≤ s.live
      · simpa [growLoop, hb] using h
      · simp only [growLoop, if_neg hb]
        exact ih _ (by simp; omega)

theorem shrinkLoop_live_le (cfg : PoolConfig) (n : Nat) (s : PoolState) :
    (shrinkLoop cfg n s).live ≤ s.live := by
  induction n generalizing s with
  | zero => simp [shrinkLoop]
  | succ m ih =>
      by_cases hb : s.live ≤ cfg.minPages
      · simp [shrinkLoop, hb]
      · by_cases hi : 0 < s.idle
        · simp only [shrinkLoop, if_neg hb, if_pos hi]
          have := ih { live := s.live - 1, idle := s.idle - 1 }
          simp at this
          omega
        · simp [shrinkLoop, hb, hi]

theorem step_live_le (cfg : PoolConfig) (hmm : cfg.minPages ≤ cfg.hardMax)
    (s : PoolState) (op : PoolOp) (h : s.live ≤ cfg.hardMax) :
    (step cfg s op).live ≤ cfg.hardMax := by
  cases op with
  | get ok =>
      simp only [step, getStep]
      by_cases h1 : 0 < s.idle
      · simpa [h1] using h
      · by_cases h2 : s.live < cfg.hardMax
        · cases ok <;> simp [h1, h2] <;> omega
        · simpa [h1, h2] using h
  | put r rep =>
      cases r with
      | false => simpa [step, putStep] using h
      | true =>
          by_cases h2 : s.live - 1 < cfg.minPages ∧ rep = true
          · have he : (step cfg s (.put true rep)).live = s.live - 1 + 1 := by
              simp [step, putStep, h2]
            omega
          · have he : (step cfg s (.put true rep)).live = s.live - 1 := by
              simp [step, putStep, h2]
            omega
  | grow n => exact growLoop_live_le cfg n s h
  | shrink n =>
      have := shrinkLoop_live_le cfg n s
      simp only [step]
      omega

theorem normalize_min_le_hard (c : PoolConfig) :
    (normalizeConfig c).minPages ≤ (normalizeConfig c).hardMax := by
  by_cases h1 : c.minPages < 1
  · by_cases h2 : c.hardMax < 1
    · simp [normalizeConfig, h1, h2]
    · simp only [normalizeConfig, if_pos h1, if_neg h2]
      omega
  · by_cases h2 : c.hardMax < c.minPages
    · simp [normalizeConfig, h1, h2]
    · simp only [normalizeConfig, if_neg h1, if_neg h2]
      omega

/-- C5: for a configuration with `minPages ≤ hardMax` (which
`NewAdaptivePool`'s normalisation establishes — last conjunct), the live
handle count stays at most `hardMax` (it is a natural number, hence also
at least `0`) under every sequence of `Get`, `Put` and scaling-loop
operations; `Get` reports a created handle only when the live count was
strictly below `hardMax`, any other `Get` leaves the live count
unchanged (idle hit or blocking wait); and the grow branch is the
identity once the live count has reached `hardMax`. -/
theorem pool_live_bound_spec (cfg : PoolConfig)
    (hmm : cfg.minPages ≤ cfg.hardMax) (s0 : PoolState)
    (h0 : s0.live ≤ cfg.hardMax) (ops : List PoolOp) :
    (run cfg s0 ops).live ≤ cfg.hardMax ∧
    (∀ (s : PoolState) (ok : Bool),
      (getStep cfg ok s).2 = true → s.live < cfg.hardMax) ∧
    (∀ (s : PoolState) (ok : Bool),
      (getStep cfg ok s).2 = false → (getStep cfg ok s).1.live = s.live) ∧
    (∀ (s : PoolState) (n : Nat),
      cfg.hardMax ≤ s.live → growLoop cfg n s = s) ∧
    (∀ c : PoolConfig,
      (normalizeConfig c).minPages ≤ (normalizeConfig c).hardMax) := by
  refine ⟨?_, ?_, ?_, ?_, ?_⟩
  · induction ops generalizing s0 with
    | nil => simpa [run] using h0
    | cons op rest ih =>
        have h1 := step_live_le cfg hmm s0 op h0
        simpa [run, List.foldl_cons] using ih (step cfg s0 op) h1
  · intro s ok
    unfold getStep
    by_cases h1 : 0 < s.idle
    · simp [h1]
    · by_cases h2 : s.live < cfg.hardMax
      · cases ok <;> simp [h1, h2]
      · simp [h1, h2]
  · intro s ok
    unfold getStep
    by_cases h1 : 0 < s.idle
    · simp [h1]
    · by_cases h2 : s.live < cfg.hardMax
      · cases ok <;> simp [h1, h2]
      · simp [h1, h2]
  · intro s n hge
    cases n with
    | zero => rfl
    | succ m => simp [growLoop, hge]
  · intro c
    exact normalize_min_le_hard c

/-- Witness for `pool_live_bound_spec` on a small concrete run. -/
theorem pool_live_bound_spec_witness :
    (run { minPages := 1, hardMax := 2, memThreshold := 9/10,
           scaleStep := 1/20 }
       { live := 1, idle := 1 }
       [PoolOp.get true, PoolOp.get true, PoolOp.put true true,
        PoolOp.grow 5, PoolOp.shrink 1]).live ≤ 2 := by
  exact (pool_live_bound_spec _ (by norm_num) _ (by norm_num) _).1

end PoolSizing

namespace Engine

/-- Mirrors `FetchResult` in `engine/engine.go`. -/
structure FetchResult where
  html : String
  title : String
  statusCode : Int
  finalURL : String
  engineName : String
deriving DecidableEq

/-- Mirrors `Cookie` fields used by the engines (`net/http.Cookie`
restricted to the fields the repository sets). -/
structure Cookie where
  name : String
  value : String
  domain : String
  path : String
deriving DecidableEq

/-- Mirrors `FetchRequest` in `engine/engine.go`; the timeout is in
nanoseconds. -/
structure FetchRequest where
  url : String
  headers : List (String × String)
  cookies : List Cookie
  timeout : Int
  stealth : Bool
deriving DecidableEq

end Engine

namespace DomainMemory

open AssocMap

/-- Mirrors `domainEntry` in `engine/domain_memory.go`; the expiry
instant is in nanoseconds. -/
structure DomainEntry where
  engineName : String
  expiresAt : Int
deriving DecidableEq

/-- The `DomainMemory` store: host → entry. -/
def Mem : Type := List (String × DomainEntry)

/-- Mirrors `DomainMemory.Get` at instant `now`: the remembered engine
name, or the empty string when the entry is absent or expired
(`time.Now().After(entry.expiresAt)`); the lazy delete of an expired
entry does not change the value any read returns, so the read is
modelled as pure. -/
def memGet (mem : Mem) (domain : String) (now : Int) : String :=
  match lookupA mem domain with
  | none => ""
  | some e => if e.expiresAt < now then "" else e.engineName

/-- Mirrors `DomainMemory.Set` at instant `now`:
`expiresAt = now + ttl`. -/
def memSet (mem : Mem) (domain engineName : String) (now ttl : Int) : Mem :=
  setA mem domain { engineName := engineName, expiresAt := now + ttl }

/-- Mirrors `DomainMemory.Delete`. -/
def memDelete (mem : Mem) (domain : String) : Mem :=
  eraseA mem domain

theorem memGet_memSet (mem : Mem) (domain engineName : String)
    (now ttl : Int) (httl : 0 ≤ ttl) :
    memGet (memSet mem domain engineName now ttl) domain now = engineName := by
  unfold memGet memSet
  rw [lookupA_setA]
  have h : ¬ (now + ttl < now) := by omega
  simp [h]

end DomainMemory

namespace Dispatcher

open DomainMemory

/-- One engine's behaviour for the fixed request under dispatch: its
stable name and the outcome its `Fetch` produces. -/
structure EngineSpec where
  name : String
  fetch : Except String Engine.FetchResult

/-- One collected `raceResult` posted on the results channel: either a
successful `FetchResult` (nil error) or an engine error. -/
def Outcome : Type := Except String Engine.FetchResult

/-- Return value of the race: the dispatch outcome, whether the race
context was cancelled by a first success, and the domain memory after
the race. -/
structure RaceReturn where
  res : Except String Engine.FetchResult
  cancelled : Bool
  mem : Mem

/-- Mirrors the collection loop of `Dispatcher.race`: outcomes are
consumed in channel order; an error is retained as `lastErr`; the first
success cancels the race context, writes the winning engine name into
domain memory under `domain`, and returns the result; when the channel
closes with no success, the last error (or the synthetic
"all engines failed" error when no task posted one) is returned.
The goroutine scheduling and the staged delays only determine the order
of `outcomes`, over which the theorems quantify. -/
def raceCollect (mem : Mem) (domain url : String) (now ttl : Int) :
    List Outcome → Option String → RaceReturn
  | [], lastErr =>
      { res := .error (match lastErr with
          | some e => e
          | none => "dispatcher: all engines failed for " ++ url),
        cancelled := false, mem := mem }
  | .error e :: rest, _ => raceCollect mem domain url now ttl rest (some e)
  | .ok r :: _, _ =>
      { res := .ok r, cancelled := true,
        mem := memSet mem domain r.engineName now ttl }

/-- First success in channel order. -/
def firstOk : List Outcome → Option Engine.FetchResult
  | [] => none
  | .ok r :: _ => some r
  | .error _ :: rest => firstOk rest

/-- Error of the last collected outcome, when every outcome failed. -/
def lastErrorOf : List Outcome → Option String
  | [] => none
  | .error e :: rest =>
      match lastErrorOf rest with
      | some e2 => some e2
      | none => some e
  | .ok _ :: rest => lastErrorOf rest

theorem firstOk_isSome_of_mem_ok (outcomes : List Outcome)
    (r : Engine.FetchResult) (h : Except.ok r ∈ outcomes) :
    ∃ r2, firstOk outcomes = some r2 := by
  induction outcomes with
  | nil => simp at h
  | cons o rest2 ih =>
      cases o with
      | ok r2 => exact ⟨r2, rfl⟩
      | error e =>
          rcases List.mem_cons.mp h with h1 | h1
          · exact absurd h1 (by simp)
          · simpa [firstOk] using ih h1

theorem raceCollect_firstOk (mem : Mem) (domain url : String)
    (now ttl : Int) (outcomes : List Outcome) (acc : Option String)
    (r : Engine.FetchResult) (h : firstOk outcomes = some r) :
    raceCollect mem domain url now ttl outcomes acc =
      { res := .ok r, cancelled := true,
        mem := memSet mem domain r.engineName now ttl } := by
  induction outcomes generalizing acc with
  | nil => simp [firstOk] at h
  | cons o rest ih =>
      cases o with
      | ok r2 =>
          simp only [firstOk, Option.some.injEq] at h
          subst h
          rfl
      | error e =>
          simp only [firstOk] at h
          exact ih (some e) h

theorem raceCollect_allFail (mem : Mem) (domain url : String)
    (now ttl : Int) (outcomes : List Outcome)
    (hall : ∀ o ∈ outcomes, ∃ e, o = Except.error e) :
    ∀ acc : Option String,
      (raceCollect mem domain url now ttl outcomes acc).res =
        .error (match lastErrorOf outcomes with
          | some e => e
          | none => match acc with
            | some e => e
            | none => "dispatcher: all engines failed for " ++ url) := by
  induction outcomes with
  | nil => intro acc; cases acc <;> rfl
  | cons o rest ih =>
      intro acc
      obtain ⟨e, rfl⟩ := hall o (List.mem_cons_self o rest)
      have hrest : ∀ o2 ∈ rest, ∃ e2, o2 = Except.error e2 := by
        intro o2 ho2
        exact hall o2 (List.mem_cons_of_mem _ ho2)
      have := ih hrest (some e)
      simp only [raceCollect, lastErrorOf]
      rw [this]
      cases hl : lastErrorOf rest <;> rfl

/-- C2: whenever at least one collected outcome is a success, the race
returns the first success collected, cancels the race context, and
records the winning engine's name in domain memory under the host (a
subsequent read returns it, for any nonnegative TTL); when every task
fails the race returns the last error observed, or the synthetic
"all engines failed" error when no task posted an outcome. -/
theorem dispatcher_race_spec (mem : Mem) (domain url : String)
    (now ttl : Int) (outcomes : List Outcome) (httl : 0 ≤ ttl) :
    ((∃ o ∈ outcomes, ∃ r, o = Except.ok r) →
      ∃ r, firstOk outcomes = some r) ∧
    (∀ r, firstOk outcomes = some r →
      raceCollect mem domain url now ttl outcomes none =
        { res := .ok r, cancelled := true,
          mem := memSet mem domain r.engineName now ttl } ∧
      memGet (memSet mem domain r.engineName now ttl) domain now =
        r.engineName) ∧
    ((∀ o ∈ outcomes, ∃ e, o = Except.error e) →
      (outcomes = [] →
        (raceCollect mem domain url now ttl outcomes none).res =
          .error ("dispatcher: all engines failed for " ++ url)) ∧
      (∀ e, lastErrorOf outcomes = some e →
        (raceCollect mem domain url now ttl outcomes none).res =
          .error e)) := by
  refine ⟨?_, ?_, ?_⟩
  · rintro ⟨o, ho, r, rfl⟩
    exact firstOk_isSome_of_mem_ok outcomes r ho
  · intro r h
    refine ⟨raceCollect_firstOk mem domain url now ttl outcomes none r h, ?_⟩
    exact memGet_memSet mem domain r.engineName now ttl httl
  · intro hall
    constructor
    · rintro rfl
      rfl
    · intro e he
      have := raceCollect_allFail mem domain url now ttl outcomes hall none
      rw [he] at this
      exact this

/-- Witness for `dispatcher_race_spec` on a concrete race in which the
first engine fails and the second succeeds. -/
theorem dispatcher_race_spec_witness :
    raceCollect [] ("example.com") ("https://example.com/") 0 1
        [Except.error ("http: boom"),
         Except.ok { html := "<html></html>", title := "t", statusCode := 200,
                     finalURL := "https://example.com/",
                     engineName := "rod" }] none =
      { res := .ok { html := "<html></html>", title := "t", statusCode := 200,
                     finalURL := "https://example.com/",
                     engineName := "rod" },
        cancelled := true,
        mem := memSet [] ("example.com") ("rod") 0 1 } := by
  exact ((dispatcher_race_spec [] ("example.com") ("https://example.com/") 0 1
    [Except.error ("http: boom"),
     Except.ok { html := "<html></html>", title := "t", statusCode := 200,
                 finalURL := "https://example.com/", engineName := "rod" }]
    (by norm_num)).2.1 _ rfl).1

end Dispatcher

namespace DispatchPath

open DomainMemory Dispatcher

/-- Mirrors the engine scan in `Dispatcher.Dispatch`
(`for _, eng := range d.engines { if eng.Name() == remembered ... break }`):
the first installed engine whose name is the remembered one. -/
def findEngine (engines : List EngineSpec) (remembered : String) :
    Option EngineSpec :=
  match engines with
  | [] => none
  | e :: rest =>
      if e.name = remembered then some e else findEngine rest remembered

/-- Return value of `Dispatch`: outcome, race-cancellation flag, final
domain memory, and whether the staged race was run at all. -/
structure DispatchReturn where
  res : Except String Engine.FetchResult
  cancelled : Bool
  mem : Mem
  raceRan : Bool

/-- Mirrors `Dispatcher.Dispatch`: consult domain memory for the host;
on a hit, run the remembered engine synchronously when it is installed —
returning its result on success, deleting the memory entry and falling
through to the full staged race on failure; on a miss (or a remembered
name that matches no installed engine) run the race directly.
`outcomes` is the channel order of the race the dispatcher would run,
and each engine's `fetch` is its outcome for this request. -/
def dispatch (engines : List EngineSpec) (mem : Mem) (domain url : String)
    (now ttl : Int) (outcomes : List Outcome) : DispatchReturn :=
  let remembered := memGet mem domain now
  if remembered = "" then
    let rr := raceCollect mem domain url now ttl outcomes none
    { res := rr.res, cancelled := rr.cancelled, mem := rr.mem,
      raceRan := true }
  else
    match findEngine engines remembered with
    | some eng =>
        match eng.fetch with
        | .ok r =>
            { res := .ok r, cancelled := false, mem := mem, raceRan := false }
        | .error _ =>
            let mem2 := memDelete mem domain
            let rr := raceCollect mem2 domain url now ttl outcomes none
            { res := rr.res, cancelled := rr.cancelled, mem := rr.mem,
              raceRan := true }
    | none =>
        let rr := raceCollect mem domain url now ttl outcomes none
        { res := rr.res, cancelled := rr.cancelled, mem := rr.mem,
          raceRan := true }

/-- C3: on a domain-memory hit naming an installed engine, `Dispatch`
runs exactly that engine synchronously; on its success the result is
returned and no race is run; on its failure the memory entry for the
host is deleted and the outcome is exactly that of the full staged race
on the remaining memory — so the remembered engine's failure never by
itself makes `Dispatch` return an error. -/
theorem dispatcher_memory_path_spec (engines : List EngineSpec) (mem : Mem)
    (domain url : String) (now ttl : Int) (outcomes : List Outcome)
    (hmem : memGet mem domain now ≠ "") :
    (∀ eng r, findEngine engines (memGet mem domain now) = some eng →
      eng.fetch = .ok r →
      dispatch engines mem domain url now ttl outcomes =
        { res := .ok r, cancelled := false, mem := mem,
          raceRan := false }) ∧
    (∀ eng err, findEngine engines (memGet mem domain now) = some eng →
      eng.fetch = .error err →
      dispatch engines mem domain url now ttl outcomes =
        { res := (raceCollect (memDelete mem domain) domain url now ttl
            outcomes none).res,
          cancelled := (raceCollect (memDelete mem domain) domain url now ttl
            outcomes none).cancelled,
          mem := (raceCollect (memDelete mem domain) domain url now ttl
            outcomes none).mem,
          raceRan := true }) := by
  constructor
  · intro eng r hfind hok
    unfold dispatch
    rw [if_neg hmem, hfind]
    simp only [hok]
  · intro eng err hfind herr
    unfold dispatch
    rw [if_neg hmem, hfind]
    simp only [herr]

/-- Witness for `dispatcher_memory_path_spec`: one installed engine that
is remembered for the host and succeeds. -/
theorem dispatcher_memory_path_spec_witness :
    dispatch
        [{ name := "http",
           fetch := Except.ok { html := "<html>x</html>", title := "",
                                statusCode := 200,
                                finalURL := "https://h/",
                                engineName := "http" } }]
        [(("h"), { engineName := "http", expiresAt := 10 })]
        ("h") ("https://h/") 0 5 [] =
      { res := Except.ok { html := "<html>x</html>", title := "",
                           statusCode := 200, finalURL := "https://h/",
                           engineName := "http" },
        cancelled := false,
        mem := [(("h"), { engineName := "http", expiresAt := 10 })],
        raceRan := false } := by
  exact (dispatcher_memory_path_spec
    [{ name := "http",
       fetch := Except.ok { html := "<html>x</html>", title := "",
                            statusCode := 200, finalURL := "https://h/",
                            engineName := "http" } }]
    [(("h"), { engineName := "http", expiresAt := 10 })]
    ("h") ("https://h/") 0 5 [] (by decide)).1 _ _ rfl rfl

end DispatchPath

namespace SimHash

/-- Go `unicode.IsSpace`: the Unicode White_Space code points (Latin-1
fast path plus the White_Space ranges). -/
def isGoSpace (c : Char) : Bool :=
  let n := c.toNat
  n = 9 || n = 10 || n = 11 || n = 12 || n = 13 || n = 32 ||
  n = 133 || n = 160 || n = 5760 ||
  (8192 ≤ n && n ≤ 8202) || n = 8232 || n = 8233 ||
  n = 8239 || n = 8287 || n = 12288

/-- Splitting loop of Go `strings.Fields`: maximal runs of
non-whitespace characters, in order (`acc` is the current run,
reversed). -/
def fieldsAux : List Char → List Char → List (List Char)
  | acc, [] => if acc.isEmpty then [] else [acc.reverse]
  | acc, c :: rest =>
      if isGoSpace c then
        if acc.isEmpty then fieldsAux [] rest
        else acc.reverse :: fieldsAux [] rest
      else fieldsAux (c :: acc) rest

/-- Go `strings.Fields`. -/
def fields (s : String) : List String :=
  (fieldsAux [] s.data).map (fun cs => String.mk cs)

/-- UTF-8 encoding of one code point, as Go produces for `[]byte(s)`. -/
def utf8Encode (n : Nat) : List Nat :=
  if n < 128 then [n]
  else if n < 2048 then [192 + n / 64, 128 + n % 64]
  else if n < 65536 then
    [224 + n / 4096, 128 + (n / 64) % 64, 128 + n % 64]
  else
    [240 + n / 262144, 128 + (n / 4096) % 64, 128 + (n / 64) % 64,
     128 + n % 64]

/-- Bytes of a word (`[]byte(word)`): the UTF-8 encoding of its code
points. -/
def wordBytes (w : String) : List Nat :=
  w.data.flatMap (fun c => utf8Encode c.toNat)

/-- FNV-1a offset basis (64-bit), `hash/fnv`. -/
def fnvOffset : Nat := 14695981039346656037

/-- FNV-1a prime (64-bit), `hash/fnv`. -/
def fnvPrime : Nat := 1099511628211

/-- One FNV-1a step: XOR the byte in, multiply by the prime, modulo
`2^64`. -/
def fnv1aStep (h b : Nat) : Nat := ((h ^^^ b) * fnvPrime) % (2 ^ 64)

/-- 64-bit FNV-1a of a byte sequence (`fnv.New64a(); h.Write(...);
h.Sum64()`). -/
def fnv1a64 (bytes : List Nat) : Nat := bytes.foldl fnv1aStep fnvOffset

/-- Hash of one token in `Fingerprint`. -/
def wordHash (w : String) : Nat := fnv1a64 (wordBytes w)

/-- Per-word counter update of `Fingerprint`: position `i` gains `+1`
when bit `i` of the hash is set and `−1` otherwise. -/
def updVec (v : Nat → Int) (hash : Nat) : Nat → Int :=
  fun i => if hash.testBit i then v i + 1 else v i - 1

/-- The signed counter vector accumulated over all tokens. -/
def simVector (words : List String) : Nat → Int :=
  words.foldl (fun v w => updVec v (wordHash w)) (fun _ => 0)

/-- Assembly loop of `Fingerprint`: set output bit `i` (for
`i ∈ 0..63`) exactly when counter `i` is strictly positive. -/
def fingerprintBitsAux (v : Nat → Int) (n : Nat) : Nat :=
  (List.range n).foldl
    (fun fp i => if 0 < v i then fp ||| (1 <<< i) else fp) 0

/-- Mirrors `Fingerprint` in the simhash package: split on whitespace;
no tokens ⇒ 0; otherwise FNV-1a each token into the counter vector and
emit the sign bits. -/
def Fingerprint (text : String) : Nat :=
  let words := fields text
  if words.isEmpty then 0
  else fingerprintBitsAux (simVector words) 64

/-- Mirrors `makeShingles`: `n`-gram shingles with tokens joined by an
underscore; fewer than `n` tokens give no shingles. -/
def makeShingles (tokens : List String) (n : Nat) : List String :=
  if tokens.length < n then []
  else
    (List.range (tokens.length - n + 1)).map
      (fun i => String.intercalate ("_") ((tokens.drop i).take n))

/-- Mirrors `FingerprintDOM`, parametric in `extractTags` (the
`golang.org/x/net/html` tokenizer walk collecting start-tag and
self-closing-tag names in document order — a third-party library,
abstracted as a function): empty tag sequence ⇒ 0; otherwise fingerprint
the 3-gram shingles joined by spaces, degenerating to the space-joined
tag sequence itself when there are fewer than 3 tags. -/
def FingerprintDOM (extractTags : String → List String)
    (htmlStr : String) : Nat :=
  let tags := extractTags htmlStr
  if tags.isEmpty then 0
  else
    let shingles := makeShingles tags 3
    if shingles.isEmpty then
      Fingerprint (String.intercalate (" ") tags)
    else
      Fingerprint (String.intercalate (" ") shingles)

theorem fingerprintBitsAux_testBit (v : Nat → Int) (n i : Nat) :
    (fingerprintBitsAux v n).testBit i =
      (decide (i < n) && decide (0 < v i)) := by
  induction n with
  | zero => simp [fingerprintBitsAux]
  | succ m ih =>
      unfold fingerprintBitsAux at ih ⊢
      rw [List.range_succ, List.foldl_append, List.foldl_cons,
        List.foldl_nil]
      by_cases hv : 0 < v m
      · rw [if_pos hv]
        rw [Nat.testBit_or, ih]
        have hshift : (1 <<< m : Nat) = 2 ^ m := by
          rw [Nat.shiftLeft_eq, one_mul]
        rw [hshift, Nat.testBit_two_pow]
        by_cases him : i = m
        · subst him
          simp [hv]
        · have hmi : (decide (m = i)) = false := by
            simp [Ne.symm him]
          rw [hmi]
          simp only [Bool.or_false]
          congr 1
          by_cases hlt : i < m
          · simp [hlt, Nat.lt_succ_of_lt hlt]
          · have h2 : ¬ i < m + 1 := by omega
            simp [hlt, h2]
      · rw [if_neg hv, ih]
        by_cases him : i = m
        · subst him
          simp [hv]
        · congr 1
          by_cases hlt : i < m
          · simp [hlt, Nat.lt_succ_of_lt hlt]
          · have h2 : ¬ i < m + 1 := by omega
            simp [hlt, h2]

theorem simVector_nil (i : Nat) : simVector [] i = 0 := rfl

/-- C8: `Fingerprint` returns 0 when splitting on whitespace yields no
tokens; in every case output bit `i < 64` is set exactly when the
FNV-1a-accumulated counter at position `i` is strictly positive;
`FingerprintDOM` returns 0 for HTML with no extracted tags, fingerprints
the space-joined tag sequence itself for fewer than 3 tags and the
3-gram shingle sequence otherwise; hence two HTML documents with
identical tag sequences have equal DOM fingerprints. -/
theorem simhash_fingerprint_spec :
    (∀ t : String, fields t = [] → Fingerprint t = 0) ∧
    (∀ (t : String) (i : Nat), i < 64 →
      ((Fingerprint t).testBit i = true ↔ 0 < simVector (fields t) i)) ∧
    (∀ (f : String → List String) (h : String),
      f h = [] → FingerprintDOM f h = 0) ∧
    (∀ (f : String → List String) (h : String),
      f h ≠ [] → (f h).length < 3 →
      FingerprintDOM f h = Fingerprint (String.intercalate (" ") (f h))) ∧
    (∀ (f : String → List String) (h : String),
      3 ≤ (f h).length →
      FingerprintDOM f h =
        Fingerprint (String.intercalate (" ") (makeShingles (f h) 3))) ∧
    (∀ (f : String → List String) (h1 h2 : String),
      f h1 = f h2 → FingerprintDOM f h1 = FingerprintDOM f h2) := by
  refine ⟨?_, ?_, ?_, ?_, ?_, ?_⟩
  · intro t ht
    simp [Fingerprint, ht]
  · intro t i hi
    unfold Fingerprint
    by_cases he : (fields t).isEmpty
    · have ht : fields t = [] := by
        cases h : fields t
        · rfl
        · rw [h] at he; simp at he
      rw [if_pos he, ht]
      simp [simVector_nil, Nat.zero_testBit]
    · rw [if_neg he]
      rw [fingerprintBitsAux_testBit]
      simp [hi]
  · intro f h hf
    simp [FingerprintDOM, hf]
  · intro f h hne hlen
    have he : (f h).isEmpty = false := by
      cases hc : f h
      · exact absurd hc hne
      · rfl
    have hsh : makeShingles (f h) 3 = [] := by
      simp [makeShingles, hlen]
    simp [FingerprintDOM, he, hsh]
  · intro f h hlen
    have hne : f h ≠ [] := by
      intro hc
      rw [hc] at hlen
      simp at hlen
    have he : (f h).isEmpty = false := by
      cases hc : f h
      · exact absurd hc hne
      · rfl
    have hts : ¬ (f h).length < 3 := by omega
    have hlen2 : (makeShingles (f h) 3).length = (f h).length - 3 + 1 := by
      unfold makeShingles
      rw [if_neg hts]
      simp
    have hsh : (makeShingles (f h) 3).isEmpty = false := by
      cases hc : makeShingles (f h) 3 with
      | nil =>
          rw [hc] at hlen2
          simp only [List.length_nil] at hlen2
          omega
      | cons a l => rfl
    simp only [FingerprintDOM, he, hsh, Bool.false_eq_true, if_false]
  · intro f h1 h2 heq
    unfold FingerprintDOM
    rw [heq]

/-- Witness for `simhash_fingerprint_spec` at concrete inputs. -/
theorem simhash_fingerprint_spec_witness :
    Fingerprint ("  ") = 0 ∧
    ((Fingerprint ("a")).testBit 0 = true ↔
      0 < simVector (fields ("a")) 0) ∧
    FingerprintDOM (fun _ => []) ("plain text, no tags") = 0 ∧
    FingerprintDOM (fun _ => [("div"), ("p")]) ("<div><p>") =
      Fingerprint (String.intercalate (" ") [("div"), ("p")]) ∧
    FingerprintDOM (fun _ => [("html"), ("body"), ("div")]) ("x") =
      Fingerprint (String.intercalate (" ")
        (makeShingles [("html"), ("body"), ("div")] 3)) := by
  refine ⟨?_, ?_, ?_, ?_, ?_⟩
  · exact simhash_fingerprint_spec.1 ("  ") (by decide)
  · exact simhash_fingerprint_spec.2.1 ("a") 0 (by decide)
  · exact simhash_fingerprint_spec.2.2.1 (fun _ => [])
      ("plain text, no tags") rfl
  · exact simhash_fingerprint_spec.2.2.2.1 (fun _ => [("div"), ("p")])
      ("<div><p>") (by decide) (by decide)
  · exact simhash_fingerprint_spec.2.2.2.2.1
      (fun _ => [("html"), ("body"), ("div")]) ("x") (by decide)

end SimHash

namespace HTTPEngine

/-- Body cap of `HTTPEngine.Fetch`: `const maxBody = 10 << 20`. -/
def maxBody : Nat := 10 * 2 ^ 20

/-- ASCII case folding on a code point, the fragment of Go
`strings.ToLower` relevant to the two ASCII patterns the check looks
for. -/
def toLowerCP (n : Nat) : Nat := if 65 ≤ n ∧ n ≤ 90 then n + 32 else n

/-- Code points of a string. -/
def cpOf (s : String) : List Nat := s.data.map Char.toNat

def startsWithCP : List Nat → List Nat → Bool
  | _, [] => true
  | [], _ :: _ => false
  | c :: cs, d :: ds => c = d && startsWithCP cs ds

/-- Go `strings.Contains` on code-point lists. -/
def containsCP : List Nat → List Nat → Bool
  | [], pat => pat.isEmpty
  | s@(_ :: rest), pat => startsWithCP s pat || containsCP rest pat

/-- Mirrors `isHTMLContentType` in `engine/http_engine.go`: lowercase
the header value, then look for `text/html` or
`application/xhtml+xml`. -/
def isHTMLContentType (ct : String) : Bool :=
  containsCP ((cpOf ct).map toLowerCP) (cpOf ("text/html")) ||
  containsCP ((cpOf ct).map toLowerCP) (cpOf ("application/xhtml+xml"))

/-- The response data the acceptance phase of `HTTPEngine.Fetch`
examines once `client.Do` has returned. -/
structure HTTPResponse where
  statusCode : Nat
  contentType : String
  body : List Char
  finalURL : String

/-- Body read of `HTTPEngine.Fetch`:
`io.ReadAll(io.LimitReader(resp.Body, maxBody))`. -/
def readBody (resp : HTTPResponse) : String :=
  String.mk (resp.body.take maxBody)

/-- Mirrors the acceptance phase of `HTTPEngine.Fetch` (after the
request has been built and executed): read at most `maxBody` bytes, then
fail unless `status < 400` and the Content-Type looks like HTML, else
return the `FetchResult` with engine name `http`.  Title extraction is
the `extractTitle` tokenizer walk, abstracted as `titleOf`. -/
def fetchAccept (titleOf : String → String) (resp : HTTPResponse) :
    Except String Engine.FetchResult :=
  let bodyStr := readBody resp
  if 400 ≤ resp.statusCode || ! isHTMLContentType resp.contentType then
    .error ("http_engine: non-html or error status")
  else
    .ok { html := bodyStr, title := titleOf bodyStr,
          statusCode := Int.ofNat resp.statusCode,
          finalURL := resp.finalURL, engineName := "http" }

/-- C9: the HTTP engine reads at most 10 MiB of the body, and its
acceptance phase returns a successful `FetchResult` exactly when the
status is strictly below 400 and the Content-Type contains `text/html`
or `application/xhtml+xml` case-insensitively (the check is invariant
under case folding of the header); in every other case it returns an
error and no result. -/
theorem http_engine_accept_spec (titleOf : String → String)
    (resp : HTTPResponse) :
    ((∃ r, fetchAccept titleOf resp = .ok r) ↔
      (resp.statusCode < 400 ∧ isHTMLContentType resp.contentType = true)) ∧
    (readBody resp).length ≤ maxBody ∧
    (∀ r, fetchAccept titleOf resp = .ok r →
      r.html = readBody resp ∧ r.engineName = "http") ∧
    (∀ cps : List Nat,
      containsCP ((cps.map toLowerCP).map toLowerCP) (cpOf ("text/html")) =
        containsCP (cps.map toLowerCP) (cpOf ("text/html"))) := by
  refine ⟨?_, ?_, ?_, ?_⟩
  · constructor
    · rintro ⟨r, hr⟩
      unfold fetchAccept at hr
      by_cases hc : 400 ≤ resp.statusCode ∨ isHTMLContentType resp.contentType = false
      · exfalso
        have : (400 ≤ resp.statusCode || ! isHTMLContentType resp.contentType) = true := by
          rcases hc with h | h
          · simp [h]
          · simp [h]
        rw [if_pos this] at hr
        exact Except.noConfusion hr
      · push_neg at hc
        obtain ⟨h1, h2⟩ := hc
        constructor
        · omega
        · cases hb : isHTMLContentType resp.contentType
          · exact absurd hb h2
          · rfl
    · rintro ⟨h1, h2⟩
      have hcond : (400 ≤ resp.statusCode || ! isHTMLContentType resp.contentType) = false := by
        have : ¬ 400 ≤ resp.statusCode := by omega
        simp [this, h2]
      refine ⟨{ html := readBody resp, title := titleOf (readBody resp),
                statusCode := Int.ofNat resp.statusCode,
                finalURL := resp.finalURL, engineName := "http" }, ?_⟩
      simp only [fetchAccept]
      rw [hcond]
      simp
  · unfold readBody
    simp only [String.length, String.mk]
    exact List.length_take_le maxBody resp.body
  · intro r hr
    unfold fetchAccept at hr
    by_cases hc : (400 ≤ resp.statusCode || ! isHTMLContentType resp.contentType) = true
    · rw [if_pos hc] at hr
      exact Except.noConfusion hr
    · rw [if_neg (by simpa using hc)] at hr
      have := Except.ok.inj hr
      constructor
      · rw [← this]
      · rw [← this]
  · intro cps
    have : (cps.map toLowerCP).map toLowerCP = cps.map toLowerCP := by
      rw [List.map_map]
      apply List.map_congr_left
      intro n _
      show toLowerCP (toLowerCP n) = toLowerCP n
      by_cases h : 65 ≤ n ∧ n ≤ 90
      · have h2 : ¬ (65 ≤ n + 32 ∧ n + 32 ≤ 90) := by omega
        simp only [toLowerCP, if_pos h, if_neg h2]
      · simp only [toLowerCP, if_neg h]
    rw [this]

/-- Witness for `http_engine_accept_spec` at a concrete 200 text/html
response and a concrete 404 rejection. -/
theorem http_engine_accept_spec_witness :
    (∃ r, fetchAccept (fun _ => "t")
      { statusCode := 200, contentType := "Text/HTML; charset=utf-8",
        body := [], finalURL := "https://e/" } = .ok r) ∧
    ¬ (∃ r, fetchAccept (fun _ => "t")
      { statusCode := 404, contentType := "text/html",
        body := [], finalURL := "https://e/" } = .ok r) := by
  constructor
  · exact (http_engine_accept_spec (fun _ => "t")
      { statusCode := 200, contentType := "Text/HTML; charset=utf-8",
        body := [], finalURL := "https://e/" }).1.mpr (by decide)
  · intro hex
    have := (http_engine_accept_spec (fun _ => "t")
      { statusCode := 404, contentType := "text/html",
        body := [], finalURL := "https://e/" }).1.mp hex
    have h4 : (404 : Nat) < 400 := this.1
    omega

end HTTPEngine

namespace RodEngine

/-- Mirrors `RodEngine` in `engine/rod_engine.go`: the injected
callback (its behaviour for any request, `none` when not configured),
the stealth flag, and the derived name. -/
structure RodEngineT where
  fetchFunc : Option (Engine.FetchRequest → Except String Engine.FetchResult)
  forceStealth : Bool
  name : String

/-- Mirrors `NewRodEngine`. -/
def newRodEngine
    (f : Option (Engine.FetchRequest → Except String Engine.FetchResult))
    (forceStealth : Bool) : RodEngineT :=
  { fetchFunc := f, forceStealth := forceStealth,
    name := if forceStealth then "rod-stealth" else "rod" }

/-- Mirrors `RodEngine.Fetch`.  Go passes `req` by pointer; the body
copies it (`r := *req`) and mutates only the copy, so the first
component of the return value is the caller's request cell after the
call, and the middle component is the request value actually handed to
the callback. -/
def rodFetch (e : RodEngineT) (req : Engine.FetchRequest) :
    Engine.FetchRequest × Engine.FetchRequest ×
      Except String Engine.FetchResult :=
  match e.fetchFunc with
  | none => (req, req, .error (e.name ++ ": fetchFunc not configured"))
  | some f =>
      let r := req
      let r2 := if e.forceStealth then { r with stealth := true } else r
      match f r2 with
      | .error err => (req, r2, .error (e.name ++ ": " ++ err))
      | .ok result => (req, r2, .ok { result with engineName := e.name })

/-- C10: `RodEngine.Fetch` never mutates the caller's request — the
caller's cell equals the original request on every path, stealth being
forced only on the copy handed to the callback — and on success the
returned result's `EngineName` is overwritten with the engine's own name
(`rod` or `rod-stealth`, per `NewRodEngine`). -/
theorem rod_engine_frame_spec
    (f : Option (Engine.FetchRequest → Except String Engine.FetchResult))
    (forceStealth : Bool) (req : Engine.FetchRequest) :
    ((rodFetch (newRodEngine f forceStealth) req).1 = req) ∧
    (∀ g, f = some g →
      (rodFetch (newRodEngine f forceStealth) req).2.1 =
        (if forceStealth then { req with stealth := true } else req)) ∧
    (∀ res, (rodFetch (newRodEngine f forceStealth) req).2.2 = .ok res →
      res.engineName = (if forceStealth then "rod-stealth" else "rod")) := by
  refine ⟨?_, ?_, ?_⟩
  · cases f with
    | none => rfl
    | some g =>
        cases forceStealth with
        | false =>
            cases hg : g req with
            | error e => simp [rodFetch, newRodEngine, hg]
            | ok r => simp [rodFetch, newRodEngine, hg]
        | true =>
            cases hg : g { req with stealth := true } with
            | error e => simp [rodFetch, newRodEngine, hg]
            | ok r => simp [rodFetch, newRodEngine, hg]
  · rintro g rfl
    cases forceStealth with
    | false =>
        cases hg : g req with
        | error e => simp [rodFetch, newRodEngine, hg]
        | ok r => simp [rodFetch, newRodEngine, hg]
    | true =>
        cases hg : g { req with stealth := true } with
        | error e => simp [rodFetch, newRodEngine, hg]
        | ok r => simp [rodFetch, newRodEngine, hg]
  · intro res hres
    cases f with
    | none => simp [rodFetch, newRodEngine] at hres
    | some g =>
        cases forceStealth with
        | false =>
            cases hg : g req with
            | error e => simp [rodFetch, newRodEngine, hg] at hres
            | ok r =>
                simp [rodFetch, newRodEngine, hg] at hres
                rw [← hres]
                rfl
        | true =>
            cases hg : g { req with stealth := true } with
            | error e => simp [rodFetch, newRodEngine, hg] at hres
            | ok r =>
                simp [rodFetch, newRodEngine, hg] at hres
                rw [← hres]
                rfl

/-- Witness for `rod_engine_frame_spec` at a concrete request and
callback. -/
theorem rod_engine_frame_spec_witness :
    (rodFetch
        (newRodEngine
          (some (fun rq => Except.ok
            { html := "<html>h</html>", title := "", statusCode := 200,
              finalURL := rq.url, engineName := "callback" }))
          true)
        { url := "https://e/", headers := [], cookies := [],
          timeout := 30, stealth := false }).1 =
      { url := "https://e/", headers := [], cookies := [],
        timeout := 30, stealth := false } := by
  exact (rod_engine_frame_spec
    (some (fun rq => Except.ok
      { html := "<html>h</html>", title := "", statusCode := 200,
        finalURL := rq.url, engineName := "callback" }))
    true
    { url := "https://e/", headers := [], cookies := [],
      timeout := 30, stealth := false }).1

end RodEngine

namespace Facade

/-- Error kind of a `ScrapeError`/context error reaching the facade;
`timeout` and `canceled` are the context errors, `other` every other
failure. -/
inductive ErrKind where
  | timeout
  | canceled
  | other
deriving DecidableEq

/-- An error as seen by the facade. -/
structure ScrapeErr where
  kind : ErrKind
  msg : String
deriving DecidableEq

/-- Output of `DoScrape` (mirrors `ScrapeResult` in the scraper
package). -/
structure ScrapeResult where
  rawHTML : String
  title : String
  statusCode : Int
  finalURL : String
  engineUsed : String
  fetchMethod : String
deriving DecidableEq

/-- The inputs `DoScrape` (in `scraper/page.go`) branches on: whether a
dispatcher is installed, the request's action count and CDP URL, the
outcome `s.dispatcher.Dispatch` would produce, and the outcome the
direct rod path `s.doScrapeRod` would produce. -/
structure FacadeCtx where
  dispatcherSet : Bool
  actionsCount : Nat
  cdpURL : String
  dispatchOutcome : Except ScrapeErr Engine.FetchResult
  rodOutcome : Except ScrapeErr ScrapeResult

/-- The dispatcher path is taken when a dispatcher is installed, the
request has no actions, and no CDP URL (`s.dispatcher != nil &&
len(req.Actions) == 0 && req.CDPURL == ""`). -/
def dispatchPathTaken (c : FacadeCtx) : Bool :=
  c.dispatcherSet && c.actionsCount = 0 && c.cdpURL = ""

/-- Mirrors `DoScrape` in `scraper/page.go`: on the dispatcher path a
successful dispatch is converted and returned; on ANY dispatch error the
code logs a warning and falls through to `s.doScrapeRod` — there is no
inspection of the error's kind.  The Boolean records whether the direct
rod path was attempted. -/
def doScrape (c : FacadeCtx) : Bool × Except ScrapeErr ScrapeResult :=
  if dispatchPathTaken c then
    match c.dispatchOutcome with
    | .ok result =>
        (false, .ok { rawHTML := result.html, title := result.title,
                      statusCode := result.statusCode,
                      finalURL := result.finalURL,
                      engineUsed := result.engineName,
                      fetchMethod := result.engineName })
    | .error _ => (true, c.rodOutcome)
  else (true, c.rodOutcome)

/-- A concrete context in which the dispatcher path is taken and
`Dispatch` fails with a Timeout error while the direct rod path would
succeed. -/
def timeoutCtx : FacadeCtx :=
  { dispatcherSet := true, actionsCount := 0, cdpURL := "",
    dispatchOutcome := .error { kind := ErrKind.timeout, msg := "deadline" },
    rodOutcome := .ok { rawHTML := "<html>r</html>", title := "",
                        statusCode := 200, finalURL := "https://e/",
                        engineUsed := "", fetchMethod := "browser" } }

/-- Counterexample to C1 as stated: in `timeoutCtx` the dispatcher path
is taken and `Dispatch` returns a Timeout error, yet `DoScrape` attempts
the fallback rod scrape and returns its result — the Timeout error is
not returned to the caller unchanged. -/
theorem facade_fallback_counterexample :
    dispatchPathTaken timeoutCtx = true ∧
    timeoutCtx.dispatchOutcome =
      .error { kind := ErrKind.timeout, msg := "deadline" } ∧
    (doScrape timeoutCtx).1 = true ∧
    (doScrape timeoutCtx).2 ≠
      .error { kind := ErrKind.timeout, msg := "deadline" } := by
  refine ⟨rfl, rfl, rfl, ?_⟩
  intro h
  exact Except.noConfusion h

/-- C1 amended: when the dispatcher path is taken and `Dispatch` returns
an error, the facade performs one fallback attempt on the direct rod
(Browser Engine) path unconditionally and returns the fallback's
outcome — for every dispatcher error, Timeout and Canceled included. -/
theorem facade_fallback_spec (c : FacadeCtx) (e : ScrapeErr)
    (hpath : dispatchPathTaken c = true)
    (herr : c.dispatchOutcome = .error e) :
    doScrape c = (true, c.rodOutcome) := by
  unfold doScrape
  rw [if_pos hpath, herr]

/-- Witness for `facade_fallback_spec` at the concrete timeout
context. -/
theorem facade_fallback_spec_witness :
    doScrape timeoutCtx = (true, timeoutCtx.rodOutcome) := by
  exact facade_fallback_spec timeoutCtx
    { kind := ErrKind.timeout, msg := "deadline" } (by decide) rfl

end Facade
